import Mathlib

/-!
Verification of the mcp-proxy-go gateway core against its specification.

The development shallowly embeds the relevant Go functions:
* `internal/mcp` — `Message`, `IsInitializeRequest`;
* the HTTP server's `session` — `handleMessage`, `request`, `close`,
  `buildErrorMessage`, `buildHeartbeat`;
* `internal/eventstore` — `Memory.Store` / `Memory.ReplayAfter`;
* `internal/jsonfilter` — the newline-JSON `Reader`;
* `internal/auth` plus `Server.handle` — the authentication gate;
* the `Bridge` — `forward` with per-direction id namespacing;
* `internal/stdio` — the close-once `Client.close`.

Raw JSON payloads are modelled as strings together with the result that
`encoding/json.Unmarshal` into `map[string]json.RawMessage` would produce
for them (`none` when the bytes do not form a JSON object).  Field values
are kept as their raw JSON tokens, exactly as the Go code does.
-/

/-- A JSON-RPC message as the gateway sees it: the raw bytes plus the
envelope `encoding/json.Unmarshal` would yield for a top-level
`map[string]json.RawMessage` decode.  `parsed = none` models a decode
error; otherwise the association list holds each field's raw JSON value
token (the Go map is modelled as a list with distinct keys, looked up by
`List.lookup`). -/
structure Msg where
  raw : String
  parsed : Option (List (String × String))
deriving DecidableEq

/-! ## Session: inbound demultiplexing (`session.handleMessage`) -/

/-- The key `session.handleMessage` would deliver a message to: the raw
token of the envelope's `id` field when it matches a registered pending
key (`s.pending.Load(string(idRaw))`), and `none` otherwise. -/
def deliverTo (pending : List String) (m : Msg) : Option String :=
  match m.parsed with
  | none => none
  | some env =>
    match env.lookup "id" with
    | none => none
    | some idTok => if idTok ∈ pending then some idTok else none

/-- Observable effects of `session.handleMessage`. -/
inductive Effect where
  | deliver (key : String)
  | storeBroadcast (payload : String)
deriving DecidableEq

/-- `session.handleMessage`: on a pending-id match the message is sent
into the waiting request's channel and then stored and broadcast; in
every other case (decode error, no id, unmatched id) it is stored and
broadcast directly. -/
def handleMessage (pending : List String) (m : Msg) : List Effect :=
  match deliverTo pending m with
  | some k => [Effect.deliver k, Effect.storeBroadcast m.raw]
  | none => [Effect.storeBroadcast m.raw]

/-! ## Session: `session.request` -/

/-- Result of one `session.request` call. -/
inductive ReqOutcome where
  | invalidJson
  | sendFailed (e : String)
  | notifOk
  | cancelled
  | responded (respBytes : String)
deriving DecidableEq

/-- An occurrence the blocked `request` call can observe: an inbound
transport message (run through `handleMessage`) or cancellation of the
caller's context. -/
inductive InEv where
  | inbound (m : Msg)
  | ctxCancel
deriving DecidableEq

/-- The `select` loop at the end of `session.request`: wait until either
the context is cancelled (remove the pending entry, surface
cancellation) or `handleMessage` delivers a message into this request's
channel (remove the entry, return the bytes).  `none` means the call is
still blocked after all listed occurrences. -/
def awaitLoop (idKey : String) (pending : List String) : List InEv → Option (ReqOutcome × List String)
  | [] => none
  | InEv.ctxCancel :: _ => some (ReqOutcome.cancelled, pending.erase idKey)
  | InEv.inbound m :: rest =>
    if deliverTo pending m = some idKey then
      some (ReqOutcome.responded m.raw, pending.erase idKey)
    else
      awaitLoop idKey pending rest

/-- `session.request`: unmarshal the payload (error → "invalid JSON");
if an `id` is present register a pending entry under its raw token, send,
delete the entry on a synchronous send error, and otherwise block in
`awaitLoop`; without an `id` just send and return nothing.
`sendErr` is the synchronous result of `transport.Send`. -/
def sessionRequest (pending : List String) (payload : Msg) (sendErr : Option String)
    (events : List InEv) : Option (ReqOutcome × List String) :=
  match payload.parsed with
  | none => some (ReqOutcome.invalidJson, pending)
  | some env =>
    match env.lookup "id" with
    | none =>
      match sendErr with
      | some e => some (ReqOutcome.sendFailed e, pending)
      | none => some (ReqOutcome.notifOk, pending)
    | some idTok =>
      let pending1 := pending ++ [idTok]
      match sendErr with
      | some e => some (ReqOutcome.sendFailed e, pending1.erase idTok)
      | none => awaitLoop idTok pending1 events

/-! ## `mcp.IsInitializeRequest` and the sessionless stream branch -/

/-- Decoding a request body the way `json.Unmarshal(raw, &mcp.Request)`
does.  `invalid` covers non-JSON bytes, non-object JSON, and objects
whose `jsonrpc` or `method` field holds a non-string value (Go returns
an `UnmarshalTypeError` in all those cases); `obj` records the string
fields that are present (`none` = field absent, decoded to Go's zero
value `""`). -/
inductive ReqBody where
  | invalid
  | obj (jsonrpc : Option String) (method : Option String)
deriving DecidableEq

/-- `mcp.IsInitializeRequest`: decode, then require
`req.Method == "initialize" && req.JSONRPC == "2.0"`. -/
def IsInitializeRequest : ReqBody → Bool
  | ReqBody.invalid => false
  | ReqBody.obj jsonrpc method =>
    method.getD "" == "initialize" && jsonrpc.getD "" == "2.0"

/-- Outcome of `Server.handleStream` for a POST without an
`mcp-session-id` header. -/
inductive StreamOutcome where
  | badRequest (body : String)
  | createSessionAndServe
deriving DecidableEq

/-- The sessionless branch of `Server.handleStream`: reject with
`400 "missing session id"` unless the body is an initialize request or
the server runs stateless; otherwise create a session and serve the
request through it. -/
def handleStreamNoSession (stateless : Bool) (body : ReqBody) : StreamOutcome :=
  if !IsInitializeRequest body && !stateless then
    StreamOutcome.badRequest "missing session id"
  else
    StreamOutcome.createSessionAndServe

/-! ## JSON values built by the gateway's synthetic notifications

`buildErrorMessage`, `buildHeartbeat` and `auth.UnauthorizedResponse`
construct small Go maps and run them through `json.Marshal`, which
serializes map keys in sorted order and escapes string contents.  The
values are at most two levels deep, so they are modelled by a scalar
type nested one level under objects. -/

/-- A JSON scalar appearing in the gateway's synthetic payloads. -/
inductive JLeaf where
  | lnull
  | lnum (n : Int)
  | lstr (s : String)
deriving DecidableEq

/-- A JSON value of the shapes the gateway marshals (scalar, or object
of scalars). -/
inductive JVal where
  | leaf (l : JLeaf)
  | obj (fields : List (String × JLeaf))
deriving DecidableEq

/-- One character escaped as Go's `encoding/json` encoder does: quote,
backslash, the common control characters, HTML-unsafe characters
(`<`, `>`, `&` become `\u00XX`), other control characters as `\u00XX`. -/
def escChar (c : Char) : List Char :=
  if c = '"' then ['\\', '"']
  else if c = '\\' then ['\\', '\\']
  else if c = '\n' then ['\\', 'n']
  else if c = '\r' then ['\\', 'r']
  else if c = '\t' then ['\\', 't']
  else if c = '<' then ['\\', 'u', '0', '0', '3', 'c']
  else if c = '>' then ['\\', 'u', '0', '0', '3', 'e']
  else if c = '&' then ['\\', 'u', '0', '0', '2', '6']
  else if c.toNat < 32 then
    ['\\', 'u', '0', '0', Nat.digitChar (c.toNat / 16), Nat.digitChar (c.toNat % 16)]
  else [c]

/-- JSON string-content escaping, character by character. -/
def escStr (cs : List Char) : List Char := (cs.map escChar).flatten

/-- `strings`-style comma join, as the JSON encoder interleaves object
fields. -/
def joinComma : List (List Char) → List Char
  | [] => []
  | [x] => x
  | x :: xs => x ++ ',' :: joinComma xs

/-- Serialization of a scalar. -/
def serLeaf : JLeaf → List Char
  | JLeaf.lnull => ['n', 'u', 'l', 'l']
  | JLeaf.lnum n => (toString n).data
  | JLeaf.lstr s => '"' :: (escStr s.data ++ ['"'])

/-- Serialization of a value (object braces written `\x7b`/`\x7d`).
Object keys are emitted verbatim: the encoder would escape them too,
but every key the gateway marshals is a plain identifier. -/
def serJVal : JVal → List Char
  | JVal.leaf l => serLeaf l
  | JVal.obj fs =>
    '\x7b' :: (joinComma (fs.map fun p => '"' :: (p.1.data ++ '"' :: ':' :: serLeaf p.2)) ++ ['\x7d'])

/-- `json.Marshal` of a two-level map, fields already in Go's sorted-key
order. -/
def serTop (fs : List (String × JVal)) : String :=
  String.mk
    ('\x7b' :: (joinComma (fs.map fun p => '"' :: (p.1.data ++ '"' :: ':' :: serJVal p.2)) ++ ['\x7d']))

/-! ## Session synthetic notifications -/

/-- `buildErrorMessage` (httpserver): the fields of the synthetic
transport-error notification, in the sorted-key order `json.Marshal`
emits (`jsonrpc` < `method` < `params`). -/
def buildErrorMessage (errText : String) : List (String × JVal) :=
  [("jsonrpc", JVal.leaf (JLeaf.lstr "2.0")),
   ("method", JVal.leaf (JLeaf.lstr "mcp-proxy/error")),
   ("params", JVal.obj [("message", JLeaf.lstr errText)])]

/-- The serialized `buildErrorMessage` payload. -/
def sessionErrorPayload (errText : String) : String := serTop (buildErrorMessage errText)

/-- `buildHeartbeat` (httpserver): the synthetic heartbeat notification,
with `now` standing for `time.Now().UTC().Format(time.RFC3339Nano)`. -/
def buildHeartbeat (now : String) : List (String × JVal) :=
  [("jsonrpc", JVal.leaf (JLeaf.lstr "2.0")),
   ("method", JVal.leaf (JLeaf.lstr "mcp-proxy/heartbeat")),
   ("params", JVal.obj [("at", JLeaf.lstr now)])]

/-- The serialized `buildHeartbeat` payload. -/
def heartbeatPayload (now : String) : String := serTop (buildHeartbeat now)

/-- An event as recorded by `eventstore.Memory` (timestamps abstracted to
naturals ordered as `time.Time.Before` orders them). -/
structure Event where
  id : String
  streamID : String
  payload : String
  timestamp : Nat
deriving DecidableEq

/-- The `transport.OnError` handler installed by `newSession`: broadcast
an `Event` carrying an empty event id, the session's stream id, and the
serialized error notification (it is not written to the event store, so
its id stays empty and its timestamp is the zero value). -/
def onErrorEvent (sessionId : String) (errText : String) : Event :=
  { id := "", streamID := sessionId, payload := sessionErrorPayload errText, timestamp := 0 }

/-- One 30-second tick of `session.run`: when an event store is
configured the serialized heartbeat is stored and broadcast, otherwise
nothing happens. -/
def sessionTick (hasStore : Bool) (now : String) : Option String :=
  if hasStore then some (heartbeatPayload now) else none

/-! ## Close-once state machines (`stdio.Client.close`, `session.close`) -/

/-- The close-relevant state of a started `stdio.Client`:
the `sync.Once` guard, how often the registered close observer has
fired, and the stdin/process resources. -/
structure ClientState where
  closedOnce : Bool
  observerFires : Nat
  stdinOpen : Bool
  processAlive : Bool
deriving DecidableEq

/-- `stdio.Client.close`: under `closedOnce.Do`, close stdin, kill the
process and fire the close observer; afterwards every call is a no-op. -/
def clientClose (s : ClientState) : ClientState :=
  if s.closedOnce then s
  else { closedOnce := true, observerFires := s.observerFires + 1,
         stdinOpen := false, processAlive := false }

/-- The close-relevant state of a `session` together with its stdio
transport. -/
structure SessState where
  cancelled : Bool
  closeOnceDone : Bool
  onCloseFires : Nat
  transport : ClientState
deriving DecidableEq

/-- The `transport.OnClose` handler installed by `newSession`: cancel the
session context and run the session's own close hook under
`closeOnce.Do`. -/
def sessTransportOnClose (s : SessState) : SessState :=
  let s1 := { s with cancelled := true }
  if s1.closeOnceDone then s1
  else { s1 with closeOnceDone := true, onCloseFires := s1.onCloseFires + 1 }

/-- The transport closing underneath a session (`stdio.Client.close`,
e.g. because the child process exited): close-once on the transport,
whose registered observer is `sessTransportOnClose`. -/
def transportExit (s : SessState) : SessState :=
  if s.transport.closedOnce then s
  else
    let t := { closedOnce := true, observerFires := s.transport.observerFires + 1,
               stdinOpen := false, processAlive := false : ClientState }
    sessTransportOnClose { s with transport := t }

/-- `session.close`: cancel the context, run the session close hook
under `closeOnce.Do`, then close the transport (which fires the
transport's observer at most once). -/
def sessClose (s : SessState) : SessState :=
  let s1 := { s with cancelled := true }
  let s2 :=
    if s1.closeOnceDone then s1
    else { s1 with closeOnceDone := true, onCloseFires := s1.onCloseFires + 1 }
  transportExit s2

/-- A request to close a session-plus-transport pair: an explicit
`session.close` call or the transport closing on child-process exit. -/
inductive CloseTrigger where
  | sessionCloseCall
  | processExit
deriving DecidableEq

/-- Apply one close trigger. -/
def applyTrigger (s : SessState) : CloseTrigger → SessState
  | CloseTrigger.sessionCloseCall => sessClose s
  | CloseTrigger.processExit => transportExit s

/-- A freshly started session and transport. -/
def initSessState : SessState :=
  { cancelled := false, closeOnceDone := false, onCloseFires := 0,
    transport := { closedOnce := false, observerFires := 0,
                   stdinOpen := true, processAlive := true } }

/-! ## Authentication middleware and `Server.handle` routing -/

/-- An HTTP request as the authentication gate sees it.  Header lookup
follows Go's `Header.Get`, which returns the empty string for an absent
header, so `apiKey` holds the `X-API-Key` value with `""` for absent. -/
structure HReq where
  method : String
  path : String
  apiKey : String
deriving DecidableEq

/-- `auth.Middleware.Validate`: accept everything when no key is
configured, otherwise require the `X-API-Key` header to equal it. -/
def validateReq (cfgKey : String) (r : HReq) : Bool :=
  cfgKey == "" || r.apiKey == cfgKey

/-- The body of `auth.Middleware.UnauthorizedResponse`: `json.Marshal`
of the Go map emits its keys sorted (`error` < `id` < `jsonrpc`). -/
def unauthorizedBody : List (String × JVal) :=
  [("error", JVal.obj [("code", JLeaf.lnum 401),
     ("message", JLeaf.lstr "Unauthorized: Invalid or missing API key")]),
   ("id", JVal.leaf JLeaf.lnull),
   ("jsonrpc", JVal.leaf (JLeaf.lstr "2.0"))]

/-- The JSON-RPC error object exactly as the specification writes it,
for comparison with the marshalled body (refinement direction of the
claim; this definition follows the spec's words, not the code). -/
def specUnauthorizedBody : List (String × JVal) :=
  [("jsonrpc", JVal.leaf (JLeaf.lstr "2.0")),
   ("id", JVal.leaf JLeaf.lnull),
   ("error", JVal.obj [("code", JLeaf.lnum 401),
     ("message", JLeaf.lstr "Unauthorized: Invalid or missing API key")])]

/-- A `Server.handle` response, as far as the routing prefix determines
it (CORS headers elided; `streamRouted`/`sseRouted` stand for the
delegation to `handleStream`/`handleSSE`). -/
inductive HResp where
  | noContent
  | pong
  | unauthorized (status : Nat) (contentType : String) (body : List (String × JVal))
  | streamRouted
  | sseRouted
  | notFound
deriving DecidableEq

/-- `Server.handle`: the OPTIONS preflight and `GET /ping` answers come
before the authentication check; then failed validation yields
`UnauthorizedResponse`; then the path is routed. -/
def handle (cfgKey streamEndpoint sseEndpoint : String) (r : HReq) : HResp :=
  if r.method == "OPTIONS" then HResp.noContent
  else if r.path == "/ping" && r.method == "GET" then HResp.pong
  else if !validateReq cfgKey r then
    HResp.unauthorized 401 "application/json" unauthorizedBody
  else if r.path == streamEndpoint then HResp.streamRouted
  else if r.path == sseEndpoint then HResp.sseRouted
  else HResp.notFound

/-- Whether a response is the 401 unauthorized response. -/
def isUnauthorized : HResp → Bool
  | HResp.unauthorized _ _ _ => true
  | _ => false

/-! ## Event store (`eventstore.Memory.ReplayAfter`) -/

/-- The found-flag loop inside `Memory.ReplayAfter`: skip entries until
the one whose id equals `lastEventID` (a match sets the flag and
`continue`s), then visit every later entry of the sorted slice. -/
def visitLoop (lastID : String) : Bool → List Event → List Event
  | _, [] => []
  | found, e :: rest =>
    if e.id = lastID then visitLoop lastID true rest
    else if found then e :: visitLoop lastID found rest
    else visitLoop lastID found rest

/-- `Memory.ReplayAfter`: look `lastEventID` up in the events map; when
absent return `""` and visit nothing; otherwise return the found event's
stream id and run the visiting loop over the stream's events sorted by
timestamp.  `sorted` stands for the output of Go's `sort.Slice` over the
stream's events — its order among equal timestamps is unspecified, so it
is a parameter constrained by the theorems. -/
def replayAfterRun (events : List Event) (lastID : String) (sorted : List Event) :
    String × List Event :=
  match events.find? (fun e => e.id == lastID) with
  | none => ("", [])
  | some e => (e.streamID, visitLoop lastID false sorted)

/-! ## Newline-JSON filter (`jsonfilter.Reader`) -/

/-- Whitespace as `bytes.TrimSpace` trims it (the model covers the
ASCII subset of `unicode.IsSpace`). -/
def isSpaceB (c : Char) : Bool :=
  c == ' ' || c == '\t' || c == '\n' || c == '\r' || c == '\x0b' || c == '\x0c'

/-- `bytes.TrimSpace`: drop whitespace from both ends. -/
def trimSpace (l : List Char) : List Char :=
  ((l.reverse.dropWhile isSpaceB).reverse).dropWhile isSpaceB

/-- What `flushBufferedLines` does with one complete line, and equally
the `Read` EOF branch with the unterminated tail: trim; drop the line
when the trimmed form is empty or does not start with `\x7b` (with a
diagnostic log); emit the trimmed bytes plus a newline otherwise. -/
def lineOut (line : List Char) : List Char :=
  let t := trimSpace line
  if t.head? = some '\x7b' then t ++ ['\n'] else []

/-- The `ReadString('\n')` loop of `flushBufferedLines`: split off and
process every complete line, keep the unterminated leftover buffered.
`cur` is the partial line read so far; returns (emitted bytes, leftover
buffer). -/
def flushAux (cur : List Char) : List Char → List Char × List Char
  | [] => ([], cur)
  | c :: rest =>
    if c = '\n' then
      let r := flushAux [] rest
      (lineOut (cur ++ ['\n']) ++ r.1, r.2)
    else
      flushAux (cur ++ [c]) rest

/-- One upstream `Read`'s worth of filtering: append the chunk to the
buffer and flush complete lines.  The state is (output emitted so far,
buffered partial line). -/
def feedChunk (st : List Char × List Char) (chunk : List Char) : List Char × List Char :=
  let r := flushAux st.2 chunk
  (st.1 ++ r.1, r.2)

/-- The whole filtered stream for a chunked input: flush chunk by
chunk, then apply the EOF rule to the remaining buffer (the same
trim/`\x7b` logic, with a synthesized trailing newline). -/
def runChunks (chunks : List (List Char)) : List Char :=
  let st := chunks.foldl feedChunk ([], [])
  st.1 ++ lineOut st.2

/-- LF-splitting of a stream into lines without their terminators, the
last element being the possibly-empty unterminated tail.  This is the
specification-side decomposition the filter is compared against. -/
def splitLinesLF : List Char → List (List Char)
  | [] => [[]]
  | c :: rest =>
    if c = '\n' then [] :: splitLinesLF rest
    else
      match splitLinesLF rest with
      | [] => [[c]]
      | p :: ps => (c :: p) :: ps

/-- Prepend already-read bytes to the first of a list of lines. -/
def consHead (cur : List Char) : List (List Char) → List (List Char)
  | [] => [cur]
  | p :: ps => (cur ++ p) :: ps

/-! ## Bridge id namespacing (`Bridge.forward`) -/

/-- C9: in stateful mode, a POST without an `mcp-session-id` header
creates a session exactly when the body decodes with `method` equal to
`"initialize"` and `jsonrpc` equal to `"2.0"`; a body whose method is
`"initialize"` but whose `jsonrpc` field is absent or different from
`"2.0"` is rejected with `400 "missing session id"`. -/
theorem initialize_gate_requires_jsonrpc :
    ∀ body : ReqBody,
      (handleStreamNoSession false body = StreamOutcome.createSessionAndServe ↔
        body = ReqBody.obj (some "2.0") (some "initialize")) ∧
      (∀ jsonrpc : Option String, jsonrpc ≠ some "2.0" →
        handleStreamNoSession false (ReqBody.obj jsonrpc (some "initialize")) =
          StreamOutcome.badRequest "missing session id") := by
  intro body
  constructor
  · constructor
    · intro h
      cases body with
      | invalid => simp [handleStreamNoSession, IsInitializeRequest] at h
      | obj jsonrpc method =>
        cases jsonrpc with
        | none => simp [handleStreamNoSession, IsInitializeRequest] at h
        | some j =>
          cases method with
          | none => simp [handleStreamNoSession, IsInitializeRequest] at h
          | some m =>
            by_cases hm : m = "initialize"
            · by_cases hj : j = "2.0"
              · simp [hm, hj]
              · simp [handleStreamNoSession, IsInitializeRequest, hm, hj] at h
            · simp [handleStreamNoSession, IsInitializeRequest, hm] at h
    · intro h
      subst h
      simp [handleStreamNoSession, IsInitializeRequest]
  · intro jsonrpc hj
    cases jsonrpc with
    | none => simp [handleStreamNoSession, IsInitializeRequest]
    | some j =>
      have hj2 : j ≠ "2.0" := by
        intro h
        exact hj (by simp [h])
      simp [handleStreamNoSession, IsInitializeRequest, hj2]

/-- C9 witness: a body with method `initialize` but no `jsonrpc` field is
rejected, at a concrete input. -/
theorem initialize_gate_requires_jsonrpc_witness :
    handleStreamNoSession false (ReqBody.obj none (some "initialize")) =
      StreamOutcome.badRequest "missing session id" :=
  (initialize_gate_requires_jsonrpc (ReqBody.obj none (some "initialize"))).2
    none (by simp)

/-- C10: every inbound message handled by a session ends with a
store-and-broadcast of its raw bytes — the effect list is `pre ++
[storeBroadcast raw]` where `pre` is empty or the single delivery of a
matched pending response — so delivery of a matched response never
excludes it from the event log or the subscriber broadcast. -/
theorem handleMessage_always_stores_and_broadcasts :
    ∀ (pending : List String) (m : Msg),
      ∃ pre : List Effect,
        handleMessage pending m = pre ++ [Effect.storeBroadcast m.raw] ∧
        (pre = [] ∨ ∃ k : String, pre = [Effect.deliver k]) := by
  intro pending m
  unfold handleMessage
  cases h : deliverTo pending m with
  | none => exact ⟨[], rfl, Or.inl rfl⟩
  | some k => exact ⟨[Effect.deliver k], rfl, Or.inr ⟨k, rfl⟩⟩

/-! ## Claim C1 -/

/-- Unfolding of a successful `deliverTo`. -/
theorem deliverTo_eq_some {pending : List String} {m : Msg} {k : String}
    (h : deliverTo pending m = some k) :
    ∃ env : List (String × String),
      m.parsed = some env ∧ env.lookup "id" = some k ∧ k ∈ pending := by
  cases hp : m.parsed with
  | none => simp only [deliverTo, hp] at h; cases h
  | some env =>
    cases hl : env.lookup "id" with
    | none => simp only [deliverTo, hp, hl] at h; cases h
    | some t =>
      by_cases hmem : t ∈ pending
      · simp only [deliverTo, hp, hl, if_pos hmem] at h
        cases h
        exact ⟨env, rfl, hl, hmem⟩
      · simp only [deliverTo, hp, hl, if_neg hmem] at h
        cases h

/-- The blocking loop of `session.request` settles only by cancellation
or by delivery of a message matched against this request's pending key,
and in either case removes the pending entry. -/
theorem awaitLoop_spec (idKey : String) (p : List String) :
    ∀ (events : List InEv) (out : ReqOutcome) (p2 : List String),
      awaitLoop idKey p events = some (out, p2) →
      p2 = p.erase idKey ∧
        (out = ReqOutcome.cancelled ∨
          ∃ m : Msg, out = ReqOutcome.responded m.raw ∧
            InEv.inbound m ∈ events ∧ deliverTo p m = some idKey) := by
  intro events
  induction events with
  | nil => intro out p2 h; exact absurd h (by simp [awaitLoop])
  | cons ev rest ih =>
    intro out p2 h
    cases ev with
    | ctxCancel =>
      unfold awaitLoop at h
      cases h
      exact ⟨rfl, Or.inl rfl⟩
    | inbound m =>
      unfold awaitLoop at h
      by_cases hd : deliverTo p m = some idKey
      · rw [if_pos hd] at h
        cases h
        exact ⟨rfl, Or.inr ⟨m, rfl, by simp, hd⟩⟩
      · rw [if_neg hd] at h
        obtain ⟨h1, h2⟩ := ih out p2 h
        refine ⟨h1, ?_⟩
        cases h2 with
        | inl hc => exact Or.inl hc
        | inr hm =>
          obtain ⟨mm, hmm, hmem, hdel⟩ := hm
          exact Or.inr ⟨mm, hmm, by simp [hmem], hdel⟩

/-- Erasing a freshly appended key recovers the original pending map. -/
theorem erase_appended_key {p : List String} {k : String} (h : k ∉ p) :
    (p ++ [k]).erase k = p := by
  rw [List.erase_append_right _ h, List.erase_cons_head, List.append_nil]

/-- C1: a `session.request` call for a payload with an `id` that settles
does so in exactly one of three ways — a response whose top-level raw id
token equals the request's, context cancellation, or a synchronous send
failure — and in all three cases the pending map afterwards has no entry
for that id. -/
theorem request_settles :
    ∀ (pending : List String) (payload : Msg) (env : List (String × String))
      (idTok : String) (sendErr : Option String) (events : List InEv)
      (out : ReqOutcome) (pending2 : List String),
      payload.parsed = some env →
      env.lookup "id" = some idTok →
      idTok ∉ pending →
      sessionRequest pending payload sendErr events = some (out, pending2) →
      ((∃ b, out = ReqOutcome.responded b) ∨ out = ReqOutcome.cancelled ∨
        (∃ e, out = ReqOutcome.sendFailed e)) ∧
      idTok ∉ pending2 ∧
      (∀ b, out = ReqOutcome.responded b →
        ∃ (mR : Msg) (envR : List (String × String)),
          InEv.inbound mR ∈ events ∧ mR.raw = b ∧ mR.parsed = some envR ∧
            envR.lookup "id" = some idTok) := by
  intro pending payload env idTok sendErr events out pending2 hparse hid hfresh hrun
  cases sendErr with
  | some e =>
    simp only [sessionRequest, hparse, hid] at hrun
    cases hrun
    refine ⟨Or.inr (Or.inr ⟨e, rfl⟩), ?_, ?_⟩
    · rw [erase_appended_key hfresh]; exact hfresh
    · intro b hb; cases hb
  | none =>
    simp only [sessionRequest, hparse, hid] at hrun
    obtain ⟨hp2, hcases⟩ := awaitLoop_spec idTok (pending ++ [idTok]) events out pending2 hrun
    have hp2' : pending2 = pending := by rw [hp2, erase_appended_key hfresh]
    refine ⟨?_, by rw [hp2']; exact hfresh, ?_⟩
    · cases hcases with
      | inl hc => exact Or.inr (Or.inl hc)
      | inr hm => obtain ⟨m, hm1, _, _⟩ := hm; exact Or.inl ⟨m.raw, hm1⟩
    · intro b hb
      cases hcases with
      | inl hc => rw [hc] at hb; cases hb
      | inr hm =>
        obtain ⟨m, hm1, hmem, hdel⟩ := hm
        obtain ⟨envR, hpR, hlR, _⟩ := deliverTo_eq_some hdel
        rw [hm1] at hb
        cases hb
        exact ⟨m, envR, hmem, rfl, hpR, hlR⟩

/-- C1 witness: a concrete request with id token `1` settles with the
matching response and an empty pending map. -/
theorem request_settles_witness :
    ((Msg.mk "\x7b\"id\":1\x7d" (some [("id", "1")])).parsed = some [("id", "1")] ∧
      ([("id", "1")].lookup "id" = some "1") ∧
      ("1" ∉ ([] : List String)) ∧
      sessionRequest [] (Msg.mk "\x7b\"id\":1\x7d" (some [("id", "1")])) none
          [InEv.inbound (Msg.mk "\x7b\"id\":1,\"result\":\x7b\x7d\x7d"
            (some [("id", "1"), ("result", "\x7b\x7d")]))] =
        some (ReqOutcome.responded "\x7b\"id\":1,\"result\":\x7b\x7d\x7d", [])) ∧
    (((∃ b, ReqOutcome.responded "\x7b\"id\":1,\"result\":\x7b\x7d\x7d" = ReqOutcome.responded b) ∨
        ReqOutcome.responded "\x7b\"id\":1,\"result\":\x7b\x7d\x7d" = ReqOutcome.cancelled ∨
        (∃ e, ReqOutcome.responded "\x7b\"id\":1,\"result\":\x7b\x7d\x7d" = ReqOutcome.sendFailed e)) ∧
      ("1" ∉ ([] : List String)) ∧
      (∀ b, ReqOutcome.responded "\x7b\"id\":1,\"result\":\x7b\x7d\x7d" = ReqOutcome.responded b →
        ∃ (mR : Msg) (envR : List (String × String)),
          InEv.inbound mR ∈
              [InEv.inbound (Msg.mk "\x7b\"id\":1,\"result\":\x7b\x7d\x7d"
                (some [("id", "1"), ("result", "\x7b\x7d")]))] ∧
            mR.raw = b ∧ mR.parsed = some envR ∧ envR.lookup "id" = some "1")) :=
  ⟨⟨rfl, by decide, by decide, by decide⟩,
    request_settles [] (Msg.mk "\x7b\"id\":1\x7d" (some [("id", "1")])) [("id", "1")] "1" none
      [InEv.inbound (Msg.mk "\x7b\"id\":1,\"result\":\x7b\x7d\x7d"
        (some [("id", "1"), ("result", "\x7b\x7d")]))]
      (ReqOutcome.responded "\x7b\"id\":1,\"result\":\x7b\x7d\x7d") []
      rfl (by decide) (by decide) (by decide)⟩

/-! ## Claim C5 (corrected) -/

/-- C5 counterexample: the session's transport-error notification for the
error text `boom` does not carry method `proxy/error` — the code emits
`mcp-proxy/error`. -/
theorem session_error_method_counterexample :
    (onErrorEvent "sess" "boom").payload ≠
      "\x7b\"jsonrpc\":\"2.0\",\"method\":\"proxy/error\",\"params\":\x7b\"message\":\"boom\"\x7d\x7d" := by
  decide

/-- C5 amended: for every transport-level error with escape-free text,
the session broadcasts a synthetic notification whose JSON is exactly
`{"jsonrpc":"2.0","method":"mcp-proxy/error","params":{"message":"<text>"}}`,
tagged with the session's stream id (and not stored, hence empty event
id). -/
theorem session_error_event :
    ∀ (sid errText : String), escStr errText.data = errText.data →
      onErrorEvent sid errText =
        { id := "", streamID := sid,
          payload := "\x7b\"jsonrpc\":\"2.0\",\"method\":\"mcp-proxy/error\",\"params\":\x7b\"message\":\"" ++ errText ++ "\"\x7d\x7d",
          timestamp := 0 } := by
  intro sid t ht
  have hp : sessionErrorPayload t =
      "\x7b\"jsonrpc\":\"2.0\",\"method\":\"mcp-proxy/error\",\"params\":\x7b\"message\":\"" ++ t ++ "\"\x7d\x7d" := by
    apply String.ext
    simp only [sessionErrorPayload, serTop, buildErrorMessage, List.map_cons, List.map_nil,
      serJVal, serLeaf, joinComma, String.data_append]
    rw [ht]
    have e1 : escStr ['2', '.', '0'] = ['2', '.', '0'] := by decide
    have e2 : escStr ['m', 'c', 'p', '-', 'p', 'r', 'o', 'x', 'y', '/', 'e', 'r', 'r', 'o', 'r'] =
        ['m', 'c', 'p', '-', 'p', 'r', 'o', 'x', 'y', '/', 'e', 'r', 'r', 'o', 'r'] := by decide
    simp [e1, e2, String.data_append]
  simp [onErrorEvent, hp]

/-- C5 witness: the amended shape at the concrete error text `boom` and
stream id `sess`. -/
theorem session_error_event_witness :
    escStr "boom".data = "boom".data ∧
      onErrorEvent "sess" "boom" =
        { id := "", streamID := "sess",
          payload := "\x7b\"jsonrpc\":\"2.0\",\"method\":\"mcp-proxy/error\",\"params\":\x7b\"message\":\"" ++ "boom" ++ "\"\x7d\x7d",
          timestamp := 0 } :=
  ⟨by decide, session_error_event "sess" "boom" (by decide)⟩

/-! ## Claim C6 (corrected) -/

/-- C6 counterexample: the stored-and-broadcast heartbeat does not carry
method `proxy/heartbeat` — the code emits `mcp-proxy/heartbeat`. -/
theorem heartbeat_method_counterexample :
    sessionTick true "2026-01-01T00:00:00.000000001Z" ≠
      some "\x7b\"jsonrpc\":\"2.0\",\"method\":\"proxy/heartbeat\",\"params\":\x7b\"at\":\"2026-01-01T00:00:00.000000001Z\"\x7d\x7d" := by
  decide

/-- C6 amended: every heartbeat a session with a configured event store
stores and broadcasts on its 30-second tick is exactly
`{"jsonrpc":"2.0","method":"mcp-proxy/heartbeat","params":{"at":"<now>"}}`
for the formatted current UTC time `<now>` (escape-free by RFC 3339),
the params object holding exactly the one key `at`. -/
theorem heartbeat_shape :
    ∀ now : String, escStr now.data = now.data →
      sessionTick true now =
        some ("\x7b\"jsonrpc\":\"2.0\",\"method\":\"mcp-proxy/heartbeat\",\"params\":\x7b\"at\":\"" ++ now ++ "\"\x7d\x7d") := by
  intro now ht
  have hp : heartbeatPayload now =
      "\x7b\"jsonrpc\":\"2.0\",\"method\":\"mcp-proxy/heartbeat\",\"params\":\x7b\"at\":\"" ++ now ++ "\"\x7d\x7d" := by
    apply String.ext
    simp only [heartbeatPayload, serTop, buildHeartbeat, List.map_cons, List.map_nil,
      serJVal, serLeaf, joinComma, String.data_append]
    rw [ht]
    have e1 : escStr ['2', '.', '0'] = ['2', '.', '0'] := by decide
    have e2 : escStr ['m', 'c', 'p', '-', 'p', 'r', 'o', 'x', 'y', '/', 'h', 'e', 'a', 'r', 't',
        'b', 'e', 'a', 't'] =
        ['m', 'c', 'p', '-', 'p', 'r', 'o', 'x', 'y', '/', 'h', 'e', 'a', 'r', 't', 'b', 'e', 'a',
          't'] := by decide
    simp [e1, e2, String.data_append]
  simp [sessionTick, hp]

/-- C6 witness: the amended heartbeat shape at a concrete timestamp. -/
theorem heartbeat_shape_witness :
    escStr "2026-01-01T00:00:00.000000001Z".data = "2026-01-01T00:00:00.000000001Z".data ∧
      sessionTick true "2026-01-01T00:00:00.000000001Z" =
        some ("\x7b\"jsonrpc\":\"2.0\",\"method\":\"mcp-proxy/heartbeat\",\"params\":\x7b\"at\":\"" ++
          "2026-01-01T00:00:00.000000001Z" ++ "\"\x7d\x7d") :=
  ⟨by decide, heartbeat_shape "2026-01-01T00:00:00.000000001Z" (by decide)⟩

/-! ## Claim C8 -/

/-- A close trigger preserves the close-once invariant (fire counters
track the once-guards, which track each other) and leaves the session
close-once guard consumed. -/
theorem applyTrigger_inv (s : SessState) (t : CloseTrigger)
    (hflag : s.closeOnceDone = s.transport.closedOnce)
    (h1 : s.onCloseFires = if s.closeOnceDone then 1 else 0)
    (h2 : s.transport.observerFires = if s.transport.closedOnce then 1 else 0) :
    ((applyTrigger s t).closeOnceDone = (applyTrigger s t).transport.closedOnce) ∧
      ((applyTrigger s t).onCloseFires = if (applyTrigger s t).closeOnceDone then 1 else 0) ∧
      ((applyTrigger s t).transport.observerFires =
        if (applyTrigger s t).transport.closedOnce then 1 else 0) ∧
      (applyTrigger s t).closeOnceDone = true := by
  obtain ⟨c, d, n, tc, tn, si, pa⟩ := s
  cases t <;> cases d <;> cases tc <;>
    simp_all [applyTrigger, sessClose, transportExit, sessTransportOnClose]

/-- Close-once invariant over any sequence of close triggers. -/
theorem foldTriggers_inv (trigs : List CloseTrigger) :
    ∀ s : SessState,
      s.closeOnceDone = s.transport.closedOnce →
      s.onCloseFires = (if s.closeOnceDone then 1 else 0) →
      s.transport.observerFires = (if s.transport.closedOnce then 1 else 0) →
      ((trigs.foldl applyTrigger s).closeOnceDone =
          (trigs.foldl applyTrigger s).transport.closedOnce) ∧
        ((trigs.foldl applyTrigger s).onCloseFires =
          if (trigs.foldl applyTrigger s).closeOnceDone then 1 else 0) ∧
        ((trigs.foldl applyTrigger s).transport.observerFires =
          if (trigs.foldl applyTrigger s).transport.closedOnce then 1 else 0) ∧
        (trigs ≠ [] → (trigs.foldl applyTrigger s).closeOnceDone = true) := by
  induction trigs with
  | nil => intro s hflag h1 h2; exact ⟨hflag, h1, h2, fun h => absurd rfl h⟩
  | cons t rest ih =>
    intro s hflag h1 h2
    obtain ⟨g1, g2, g3, g4⟩ := applyTrigger_inv s t hflag h1 h2
    obtain ⟨r1, r2, r3, r4⟩ := ih (applyTrigger s t) g1 g2 g3
    refine ⟨r1, r2, r3, fun _ => ?_⟩
    cases hr : rest with
    | nil => simpa [List.foldl, hr] using g4
    | cons a l =>
      rw [hr] at r4
      simpa using r4 (by simp)

/-- C8: over any sequence of close requests — explicit `session.close`
calls interleaved with transport closes from child-process exit — the
session's registered close hook and the transport's registered close
observer each fire at most once, and exactly once as soon as one request
was made; later requests are no-ops on the observers. -/
theorem close_fires_observers_once :
    ∀ trigs : List CloseTrigger,
      (trigs.foldl applyTrigger initSessState).onCloseFires ≤ 1 ∧
        (trigs.foldl applyTrigger initSessState).transport.observerFires ≤ 1 ∧
        (trigs ≠ [] →
          (trigs.foldl applyTrigger initSessState).onCloseFires = 1 ∧
            (trigs.foldl applyTrigger initSessState).transport.observerFires = 1) := by
  intro trigs
  obtain ⟨r1, r2, r3, r4⟩ := foldTriggers_inv trigs initSessState rfl rfl rfl
  refine ⟨?_, ?_, fun hne => ?_⟩
  · rw [r2]; split <;> simp
  · rw [r3]; split <;> simp
  · have hd := r4 hne
    refine ⟨by rw [r2, hd]; simp, ?_⟩
    rw [r3, ← r1, hd]
    simp

/-- C8 witness: three mixed close requests fire each observer exactly
once. -/
theorem close_fires_observers_once_witness :
    ([CloseTrigger.sessionCloseCall, CloseTrigger.processExit,
        CloseTrigger.sessionCloseCall] ≠ ([] : List CloseTrigger)) ∧
      (([CloseTrigger.sessionCloseCall, CloseTrigger.processExit,
          CloseTrigger.sessionCloseCall].foldl applyTrigger initSessState).onCloseFires = 1 ∧
        (([CloseTrigger.sessionCloseCall, CloseTrigger.processExit,
          CloseTrigger.sessionCloseCall].foldl applyTrigger initSessState).transport.observerFires = 1)) :=
  ⟨by decide,
    (close_fires_observers_once [CloseTrigger.sessionCloseCall, CloseTrigger.processExit,
      CloseTrigger.sessionCloseCall]).2.2 (by decide)⟩

/-! ## Claim C7 (corrected) -/

/-- C7 counterexample: with API key `secret` configured, a `GET /ping`
request without any `X-API-Key` header is answered with `200 pong`, not
with the 401 response — the ping (and OPTIONS) answers precede the
authentication check in `Server.handle`. -/
theorem auth_gate_counterexample :
    handle "secret" "/mcp" "/sse" { method := "GET", path := "/ping", apiKey := "" } = HResp.pong ∧
      isUnauthorized
        (handle "secret" "/mcp" "/sse" { method := "GET", path := "/ping", apiKey := "" }) = false := by
  decide

/-- C7 amended: when a shared API key is configured, every HTTP request
other than an OPTIONS request or a `GET /ping` health check whose
`X-API-Key` header is absent or different from the key receives status
401 with `Content-Type: application/json` and a body that is the
JSON-RPC error object
`{"jsonrpc":"2.0","id":null,"error":{"code":401,"message":"Unauthorized: Invalid or missing API key"}}`
(fields serialized in Go's sorted-key order). -/
theorem auth_gate (cfgKey streamEndpoint sseEndpoint : String) (r : HReq)
    (hcfg : cfgKey ≠ "") (hopts : r.method ≠ "OPTIONS")
    (hping : ¬(r.path = "/ping" ∧ r.method = "GET"))
    (hkey : r.apiKey ≠ cfgKey) :
    handle cfgKey streamEndpoint sseEndpoint r =
        HResp.unauthorized 401 "application/json" unauthorizedBody ∧
      unauthorizedBody.Perm specUnauthorizedBody := by
  have h1 : (r.method == "OPTIONS") = false := by simp [hopts]
  have h2 : (r.path == "/ping" && r.method == "GET") = false := by
    by_cases hp : r.path = "/ping"
    · have hm : r.method ≠ "GET" := fun hm => hping ⟨hp, hm⟩
      simp [hp, hm]
    · simp [hp]
  have h3 : validateReq cfgKey r = false := by simp [validateReq, hcfg, hkey]
  refine ⟨?_, by decide⟩
  simp [handle, h1, h2, h3]

/-- C7 witness: a `POST /mcp` with no `X-API-Key` header against key
`secret` receives the 401 response with the spec's error object. -/
theorem auth_gate_witness :
    (("secret" : String) ≠ "" ∧ ("POST" : String) ≠ "OPTIONS" ∧
        ¬(("/mcp" : String) = "/ping" ∧ ("POST" : String) = "GET") ∧ ("" : String) ≠ "secret") ∧
      (handle "secret" "/mcp" "/sse" { method := "POST", path := "/mcp", apiKey := "" } =
          HResp.unauthorized 401 "application/json" unauthorizedBody ∧
        unauthorizedBody.Perm specUnauthorizedBody) :=
  ⟨⟨by decide, by decide, by decide, by decide⟩,
    auth_gate "secret" "/mcp" "/sse" { method := "POST", path := "/mcp", apiKey := "" }
      (by decide) (by decide) (by decide) (by decide)⟩

/-! ## Claim C3 -/

/-- After the found-flag is set, the loop visits every remaining entry
(no remaining entry repeats the matched id). -/
theorem visitLoop_all (lastID : String) :
    ∀ l : List Event, (∀ x ∈ l, x.id ≠ lastID) → visitLoop lastID true l = l := by
  intro l
  induction l with
  | nil => intro _; rfl
  | cons x rest ih =>
    intro h
    have hx : x.id ≠ lastID := h x (List.mem_cons_self x rest)
    have hr := ih fun y hy => h y (List.mem_cons_of_mem x hy)
    simp [visitLoop, hx, hr]

/-- In a timestamp-sorted slice with distinct ids in which no other
entry shares the matched event's timestamp, the loop visits exactly the
entries with strictly later timestamps. -/
theorem visitLoop_filter (e : Event) :
    ∀ l : List Event,
      e ∈ l →
      l.Pairwise (fun a b => a.timestamp ≤ b.timestamp) →
      (l.map Event.id).Nodup →
      (∀ x ∈ l, x ≠ e → x.timestamp ≠ e.timestamp) →
      visitLoop e.id false l = l.filter (fun x => e.timestamp < x.timestamp) := by
  intro l
  induction l with
  | nil => intro h; exact absurd h (List.not_mem_nil e)
  | cons x rest ih =>
    intro hmem hpw hnd hts
    rw [List.pairwise_cons] at hpw
    rw [List.map_cons, List.nodup_cons] at hnd
    by_cases hx : x.id = e.id
    · have hxe : x = e := by
        rcases List.mem_cons.mp hmem with h | h
        · exact h.symm
        · exact absurd (hx ▸ List.mem_map_of_mem Event.id h : x.id ∈ rest.map Event.id) hnd.1
      have hrest_ne : ∀ y ∈ rest, y.id ≠ e.id := by
        intro y hy hEq
        exact hnd.1 (hx ▸ hEq ▸ List.mem_map_of_mem Event.id hy)
      have h2 : visitLoop e.id true rest = rest := visitLoop_all e.id rest hrest_ne
      have hkeep : ∀ y ∈ rest, e.timestamp < y.timestamp := by
        intro y hy
        have hyne : y ≠ e := by
          intro hEq
          exact hrest_ne y hy (by rw [hEq])
        have hle : e.timestamp ≤ y.timestamp := hxe ▸ hpw.1 y hy
        have hne := hts y (List.mem_cons_of_mem x hy) hyne
        omega
      have hself : ¬ e.timestamp < x.timestamp := by rw [hxe]; omega
      rw [List.filter_cons_of_neg (by simpa using hself)]
      rw [List.filter_eq_self.mpr (by intro y hy; simpa using hkeep y hy)]
      simp [visitLoop, hx, h2]
    · have hxe : x ≠ e := fun h => hx (by rw [h])
      have hemem : e ∈ rest := by
        rcases List.mem_cons.mp hmem with h | h
        · exact absurd h.symm hxe
        · exact h
      have hxts : x.timestamp ≠ e.timestamp := hts x (List.mem_cons_self x rest) hxe
      have hxle : x.timestamp ≤ e.timestamp := hpw.1 e hemem
      have hdrop : ¬ e.timestamp < x.timestamp := by omega
      rw [List.filter_cons_of_neg (by simpa using hdrop)]
      have hrec := ih hemem hpw.2 hnd.2 fun y hy => hts y (List.mem_cons_of_mem x hy)
      simp [visitLoop, hx, hrec]

/-- With distinct ids, the map lookup finds the member itself. -/
theorem find_by_id (e : Event) :
    ∀ events : List Event, (events.map Event.id).Nodup → e ∈ events →
      events.find? (fun x => x.id == e.id) = some e := by
  intro events
  induction events with
  | nil => intro _ h; exact absurd h (List.not_mem_nil e)
  | cons x rest ih =>
    intro hnd hmem
    rw [List.map_cons, List.nodup_cons] at hnd
    rcases List.mem_cons.mp hmem with h | h
    · subst h
      simp [List.find?]
    · by_cases hx : x.id = e.id
      · exact absurd (hx ▸ List.mem_map_of_mem Event.id h) hnd.1
      · have : (x.id == e.id) = false := by simpa using hx
        simp [List.find?, this, ih hnd.2 h]

/-- C3: for every stored event `e` with an id-keyed store whose other
same-stream events carry distinct timestamps, `ReplayAfter(e.id, fn)`
returns `e`'s stream id and visits exactly the same-stream events with
strictly later timestamps, in ascending timestamp order; and for an id
not present in the store it returns the empty string and visits
nothing. -/
theorem replayAfter_visits_exactly_later :
    ∀ (events : List Event) (e : Event) (sorted : List Event),
      (events.map Event.id).Nodup →
      e ∈ events →
      sorted.Perm (events.filter (fun x => x.streamID == e.streamID)) →
      sorted.Pairwise (fun a b => a.timestamp ≤ b.timestamp) →
      (∀ x ∈ events, x.streamID = e.streamID → x.id ≠ e.id → x.timestamp ≠ e.timestamp) →
      (replayAfterRun events e.id sorted).1 = e.streamID ∧
        (replayAfterRun events e.id sorted).2.Perm
          (events.filter (fun x => x.streamID == e.streamID && decide (e.timestamp < x.timestamp))) ∧
        (replayAfterRun events e.id sorted).2.Pairwise (fun a b => a.timestamp ≤ b.timestamp) ∧
        (∀ (uid : String) (s2 : List Event), (∀ x ∈ events, x.id ≠ uid) →
          replayAfterRun events uid s2 = ("", [])) := by
  intro events e sorted hnd hmem hperm hsort hdist
  have hfind := find_by_id e events hnd hmem
  have hrun : replayAfterRun events e.id sorted = (e.streamID, visitLoop e.id false sorted) := by
    simp [replayAfterRun, hfind]
  have hin : e ∈ sorted := hperm.mem_iff.mpr (List.mem_filter.mpr ⟨hmem, by simp⟩)
  have hnds : (sorted.map Event.id).Nodup := by
    refine (hperm.map Event.id).nodup_iff.mpr ?_
    exact ((List.filter_sublist events).map Event.id).nodup hnd
  have htss : ∀ x ∈ sorted, x ≠ e → x.timestamp ≠ e.timestamp := by
    intro x hx hne
    have hxf := List.mem_filter.mp (hperm.mem_iff.mp hx)
    have hstream : x.streamID = e.streamID := by simpa using hxf.2
    have hid : x.id ≠ e.id := by
      intro hEq
      exact hne (List.inj_on_of_nodup_map hnd hxf.1 hmem hEq)
    exact hdist x hxf.1 hstream hid
  have hvisit := visitLoop_filter e sorted hin hsort hnds htss
  refine ⟨by rw [hrun], ?_, ?_, ?_⟩
  · rw [hrun]
    simp only
    rw [hvisit]
    have h1 : (sorted.filter (fun x => e.timestamp < x.timestamp)).Perm
        ((events.filter (fun x => x.streamID == e.streamID)).filter
          (fun x => e.timestamp < x.timestamp)) := hperm.filter _
    have h2 : (events.filter (fun x => x.streamID == e.streamID)).filter
          (fun x => e.timestamp < x.timestamp) =
        events.filter (fun x => x.streamID == e.streamID && decide (e.timestamp < x.timestamp)) := by
      rw [List.filter_filter]
      exact List.filter_congr fun x _ => by rw [Bool.and_comm]
    rw [h2] at h1
    exact h1
  · rw [hrun]
    simp only
    rw [hvisit]
    exact hsort.sublist (List.filter_sublist sorted)
  · intro uid s2 h
    have hnone : events.find? (fun x => x.id == uid) = none := by
      rw [List.find?_eq_none]
      intro x hx
      simpa using h x hx
    simp [replayAfterRun, hnone]

/-- C3 witness: a three-event store over two streams; replaying after
the first event of stream `s` returns `s` and visits exactly the later
`s` event, while replaying after an unknown id returns the empty string
and visits nothing. -/
theorem replayAfter_witness :
    ((([Event.mk "s_1" "s" "p1" 1, Event.mk "s_2" "s" "p2" 2,
          Event.mk "t_1" "t" "q1" 1].map Event.id).Nodup) ∧
        Event.mk "s_1" "s" "p1" 1 ∈
          [Event.mk "s_1" "s" "p1" 1, Event.mk "s_2" "s" "p2" 2, Event.mk "t_1" "t" "q1" 1]) ∧
      (replayAfterRun
          [Event.mk "s_1" "s" "p1" 1, Event.mk "s_2" "s" "p2" 2, Event.mk "t_1" "t" "q1" 1]
          "s_1"
          [Event.mk "s_1" "s" "p1" 1, Event.mk "s_2" "s" "p2" 2]).1 = "s" ∧
      (replayAfterRun
          [Event.mk "s_1" "s" "p1" 1, Event.mk "s_2" "s" "p2" 2, Event.mk "t_1" "t" "q1" 1]
          "s_1"
          [Event.mk "s_1" "s" "p1" 1, Event.mk "s_2" "s" "p2" 2]).2 = [Event.mk "s_2" "s" "p2" 2] ∧
      replayAfterRun
          [Event.mk "s_1" "s" "p1" 1, Event.mk "s_2" "s" "p2" 2, Event.mk "t_1" "t" "q1" 1]
          "unknown" [] = ("", []) := by
  have h := replayAfter_visits_exactly_later
    [Event.mk "s_1" "s" "p1" 1, Event.mk "s_2" "s" "p2" 2, Event.mk "t_1" "t" "q1" 1]
    (Event.mk "s_1" "s" "p1" 1)
    [Event.mk "s_1" "s" "p1" 1, Event.mk "s_2" "s" "p2" 2]
    (by decide) (by decide) (by decide) (by decide) (by decide)
  exact ⟨⟨by decide, by decide⟩, h.1, by decide, h.2.2.2 "unknown" [] (by decide)⟩

/-! ## Claim C4 -/

/-- LF-splitting always produces at least one (possibly empty) part. -/
theorem splitLinesLF_ne_nil : ∀ l : List Char, splitLinesLF l ≠ [] := by
  intro l
  induction l with
  | nil => simp [splitLinesLF]
  | cons c rest ih =>
    by_cases hc : c = '\n'
    · simp [splitLinesLF, hc]
    · simp only [splitLinesLF, if_neg hc]
      cases h : splitLinesLF rest <;> simp

/-- Trimming ignores the line's `\n` terminator. -/
theorem trimSpace_append_newline (l : List Char) :
    trimSpace (l ++ ['\n']) = trimSpace l := by
  have h : isSpaceB '\n' = true := by decide
  simp [trimSpace, List.reverse_append, List.dropWhile_cons, h]

/-- The newline terminator does not change a line's filter output. -/
theorem lineOut_append_newline (l : List Char) : lineOut (l ++ ['\n']) = lineOut l := by
  simp [lineOut, trimSpace_append_newline]

/-- The flush loop (plus the EOF handling of its leftover) emits
exactly the per-line outputs of the LF-decomposition of the buffer. -/
theorem flushAux_characterize :
    ∀ (input cur : List Char),
      (flushAux cur input).1 ++ lineOut (flushAux cur input).2 =
        ((consHead cur (splitLinesLF input)).map lineOut).flatten := by
  intro input
  induction input with
  | nil =>
    intro cur
    simp [flushAux, splitLinesLF, consHead]
  | cons c rest ih =>
    intro cur
    by_cases hc : c = '\n'
    · subst hc
      cases hs : splitLinesLF rest with
      | nil => exact absurd hs (splitLinesLF_ne_nil rest)
      | cons p ps =>
        have hIH := ih []
        rw [hs] at hIH
        simp only [consHead, List.nil_append] at hIH
        simp [flushAux, splitLinesLF, hs, consHead, lineOut_append_newline,
          List.append_assoc, hIH]
    · cases hs : splitLinesLF rest with
      | nil => exact absurd hs (splitLinesLF_ne_nil rest)
      | cons p ps =>
        have hIH := ih (cur ++ [c])
        rw [hs] at hIH
        simp only [flushAux, if_neg hc]
        rw [hIH]
        simp [splitLinesLF, if_neg hc, hs, consHead, List.append_assoc]

/-- Flushing a concatenation equals flushing the pieces in sequence:
the buffered filter is insensitive to how the input is chunked. -/
theorem flushAux_append :
    ∀ (a cur b : List Char),
      flushAux cur (a ++ b) =
        ((flushAux cur a).1 ++ (flushAux (flushAux cur a).2 b).1,
          (flushAux (flushAux cur a).2 b).2) := by
  intro a
  induction a with
  | nil => intro cur b; simp [flushAux]
  | cons c rest ih =>
    intro cur b
    by_cases hc : c = '\n'
    · subst hc
      simp [flushAux, ih [], List.append_assoc]
    · simp [flushAux, hc, ih (cur ++ [c])]

/-- Folding `Read` calls over chunks equals one flush of the whole
stream. -/
theorem foldFeed :
    ∀ (chunks : List (List Char)) (st : List Char × List Char),
      chunks.foldl feedChunk st =
        (st.1 ++ (flushAux st.2 chunks.flatten).1, (flushAux st.2 chunks.flatten).2) := by
  intro chunks
  induction chunks with
  | nil => intro st; simp [flushAux]
  | cons c cs ih =>
    intro st
    simp only [List.foldl_cons, List.flatten_cons]
    rw [ih (feedChunk st c)]
    simp [feedChunk, flushAux_append, List.append_assoc]

/-- C4: however the byte stream is chunked, the filter emits exactly
the LF-delimited lines (including the unterminated EOF tail, which gets
a synthesized newline) whose whitespace-trimmed form is nonempty and
begins with `\x7b` — each such line contributing its trimmed form plus
one newline, every other line contributing nothing, and no two lines
ever merging. -/
theorem jsonfilter_line_behavior :
    ∀ chunks : List (List Char),
      runChunks chunks =
        ((splitLinesLF chunks.flatten).map
          (fun line =>
            if (trimSpace line).head? = some '\x7b' then trimSpace line ++ ['\n']
            else [])).flatten := by
  intro chunks
  have h1 : runChunks chunks =
      (flushAux [] chunks.flatten).1 ++ lineOut (flushAux [] chunks.flatten).2 := by
    simp [runChunks, foldFeed chunks ([], [])]
  rw [h1, flushAux_characterize chunks.flatten []]
  have h2 : consHead [] (splitLinesLF chunks.flatten) = splitLinesLF chunks.flatten := by
    cases hs : splitLinesLF chunks.flatten with
    | nil => exact absurd hs (splitLinesLF_ne_nil _)
    | cons p ps => simp [consHead]
  rw [h2]
  rfl

/-! ## Claim C2 -/

